import Mathlib

/-!
Verification of the APIPoker engine against its specification.

The Python engine (src/backend/poker_logic.py, src/main.py, src/backend/main.py,
src/backend/ai_agent.py, src/backend/ml_models/poker_model.py,
src/backend/websockets/connection_manager.py, src/backend/websockets/handlers.py)
is shallowly embedded below.  Machine conventions:

* `random.shuffle` is modelled by passing the shuffled deck order as an explicit
  parameter; similarly `random.choice` of the rule-based agent and the trained
  scikit-learn classifier of the heuristic agent are explicit function
  parameters, since they are external nondeterminism or persisted model state.
* Python dict/set state is modelled with total functions or association lists;
  dict accesses that would raise KeyError are totalized with a default that is
  never reached on the inputs the theorems speak about.
* Python ints are modelled as unbounded `Int` (Python ints are arbitrary
  precision); the float arithmetic of the heuristic hand-strength is modelled
  over `Rat`.
-/

/-- SUITS list from poker_logic.py. -/
def SUITS : List Char := ['♠', '♥', '♦', '♣']

/-- RANKS list from poker_logic.py. -/
def RANKS : List String :=
  ["2", "3", "4", "5", "6", "7", "8", "9", "10", "J", "Q", "K", "A"]

/-- Card class from poker_logic.py: an unvalidated (suit, rank) record, with the
suit a single character and the rank a string. -/
structure Card where
  suit : Char
  rank : String
deriving DecidableEq, Repr

/-- The rank_order dict built in evaluate_hand: index of the rank inside RANKS.
A rank outside RANKS would raise KeyError in Python; the -1 default is below
every real index and is never the value taken on genuine cards. -/
def rank_order : String → Int
  | "2" => 0
  | "3" => 1
  | "4" => 2
  | "5" => 3
  | "6" => 4
  | "7" => 5
  | "8" => 6
  | "9" => 7
  | "10" => 8
  | "J" => 9
  | "Q" => 10
  | "K" => 11
  | "A" => 12
  | _ => -1

/-- Deck.__init__ builds [Card(s, r) for s in SUITS for r in RANKS] before
shuffling: the canonical 52-card deck in construction order. -/
def fullDeck : List Card :=
  (SUITS.map (fun s => RANKS.map (fun r => ⟨s, r⟩))).flatten

/-- Deck.draw(n): n successive pops from the END of the card list; returns the
drawn cards (most recently popped first) together with the remaining deck. -/
def draw (deck : List Card) (n : Nat) : List Card × List Card :=
  ((deck.drop (deck.length - n)).reverse, deck.take (deck.length - n))

/-- PokerGame from poker_logic.py (identical class in src/poker_game.py).  The
active_players set is modelled as a list without duplicates (its iteration
order), hands/bets dicts as total functions. -/
structure PokerGame where
  players : List String
  hands : String → List Card
  deck : List Card
  community : List Card
  pot : Int
  current_bet : Int
  active_players : List String
  bets : String → Int

/-- The dealing loop of PokerGame.deal: for p in self.players:
hands[p] = deck.draw(2), threaded left to right through the deck. -/
def dealHands : List String → (String → List Card) → List Card →
    ((String → List Card) × List Card)
  | [], h, d => (h, d)
  | p :: ps, h, d =>
    let r := draw d 2
    dealHands ps (fun q => if q = p then r.1 else h q) r.2

/-- PokerGame.__init__ followed by the deal() it invokes: a fresh shuffled deck
(the shuffle outcome is the deckOrder parameter), two hole cards per player,
empty community, zero pot/bets, every player active. -/
def PokerGame.init (players : List String) (deckOrder : List Card) : PokerGame :=
  let hd := dealHands players (fun _ => []) deckOrder
  { players := players, hands := hd.1, deck := hd.2, community := [],
    pot := 0, current_bet := 0, active_players := players, bets := fun _ => 0 }

/-- PokerGame.flop: community += deck.draw(3).  No stage precondition. -/
def PokerGame.flop (g : PokerGame) : PokerGame :=
  let r := draw g.deck 3
  { g with community := g.community ++ r.1, deck := r.2 }

/-- PokerGame.turn: community += deck.draw(1).  No stage precondition. -/
def PokerGame.turn (g : PokerGame) : PokerGame :=
  let r := draw g.deck 1
  { g with community := g.community ++ r.1, deck := r.2 }

/-- PokerGame.river: community += deck.draw(1).  No stage precondition. -/
def PokerGame.river (g : PokerGame) : PokerGame :=
  let r := draw g.deck 1
  { g with community := g.community ++ r.1, deck := r.2 }

/-- str(card) in Python: f-string rank then suit, e.g. "10♣". -/
def cardStr (c : Card) : String := c.rank ++ c.suit.toString

/-- The JSON-serializable snapshot produced by PokerGame.to_dict. -/
structure StateDict where
  players : List String
  hands : List (String × List String)
  community : List String
  pot : Int
  current_bet : Int
  active_players : List String
  bets : List (String × Int)
deriving DecidableEq, Repr

/-- PokerGame.to_dict: hands and bets become dicts keyed by self.players in
player order, cards become their string tokens. -/
def PokerGame.to_dict (g : PokerGame) : StateDict :=
  { players := g.players
    hands := g.players.map (fun p => (p, (g.hands p).map cardStr))
    community := g.community.map cardStr
    pot := g.pot
    current_bet := g.current_bet
    active_players := g.active_players
    bets := g.players.map (fun p => (p, g.bets p)) }

/-- Python dict lookup on an association list; a missing key would raise
KeyError in Python (d is a totalization default, never reached on snapshots
produced by to_dict for the keys the theorems use). -/
def dictGet {α : Type} (l : List (String × α)) (k : String) (d : α) : α :=
  match l.find? (fun e => e.1 == k) with
  | some e => e.2
  | none => d

/-- Card(c[-1], c[:-1]) as used when parsing a snapshot back: the suit is the
final character of the token, the rank everything before it. -/
def parseCard (c : String) : Card := ⟨c.back, c.dropRight 1⟩

/-- create_poker_game_from_state from websockets/handlers.py (the endpoints in
backend/main.py inline the same code).  It constructs PokerGame(players) —
which shuffles a FRESH deck (the deckOrder parameter) and deals two junk cards
per player from it — and then overwrites hands, community, pot, current_bet,
active_players and bets from the snapshot.  The deck field keeps whatever the
fresh constructor left behind; the snapshot stores no deck. -/
def create_poker_game_from_state (game_state : StateDict) (deckOrder : List Card) :
    PokerGame :=
  let g := PokerGame.init game_state.players deckOrder
  { g with
    hands := fun p => (dictGet game_state.hands p []).map parseCard
    community := game_state.community.map parseCard
    pot := game_state.pot
    current_bet := game_state.current_bet
    active_players := game_state.active_players
    bets := fun p => dictGet game_state.bets p 0 }

/-- evaluate_hand from poker_logic.py: the RANKS index of the single
highest-ranked card among hole + community.  Python's max raises on an empty
sequence; the -1 start is below every real card's index and is never the
result on nonempty input. -/
def evaluate_hand (player_hand : List Card) (community : List Card) : Int :=
  ((player_hand ++ community).map (fun c => rank_order c.rank)).foldl max (-1)

/-- The accumulation loop of decide_winner: best_score starts at -1, a strictly
better score restarts the winner list, an equal score appends. -/
def decideWinnerLoop (game : PokerGame) :
    List String → Int → List String → Int × List String
  | [], best_score, winners => (best_score, winners)
  | p :: ps, best_score, winners =>
    let score := evaluate_hand (game.hands p) game.community
    if best_score < score then decideWinnerLoop game ps score [p]
    else if score = best_score then decideWinnerLoop game ps best_score (winners ++ [p])
    else decideWinnerLoop game ps best_score winners

/-- decide_winner from poker_logic.py, iterating the active-player set in its
iteration order (the list modelling the set). -/
def decide_winner (game : PokerGame) : List String :=
  (decideWinnerLoop game game.active_players (-1) []).2

/-- The HTTP 400/404 failures of the action endpoint, named after the spec's
error taxonomy; in the code they are HTTPException('Player not active'),
HTTPException('Invalid raise amount'), HTTPException('Unknown action'). -/
inductive ApiError where
  | playerNotActive
  | invalidRaiseAmount
  | unknownAction
deriving DecidableEq, Repr

/-- The action-dispatch of the /action endpoint (src/main.py player_action; the
same code is inlined in backend/main.py and the websocket handler): check the
player is active, then fold / call / raise on the action string, any other
string being rejected.  An HTTPException aborts before any mutation, so the
error outcomes carry no state. -/
def player_action (g : PokerGame) (player : String) (action : String)
    (amount : Option Int) : Except ApiError PokerGame :=
  if player ∈ g.active_players then
    if action = "fold" then
      Except.ok { g with active_players := g.active_players.erase player }
    else if action = "call" then
      let bet := g.current_bet - g.bets player
      Except.ok { g with
        bets := fun q => if q = player then g.bets player + bet else g.bets q,
        pot := g.pot + bet }
    else if action = "raise" then
      match amount with
      | none => Except.error ApiError.invalidRaiseAmount
      | some a =>
        if a ≤ g.current_bet then Except.error ApiError.invalidRaiseAmount
        else
          let bet := a - g.bets player
          Except.ok { g with
            current_bet := a,
            bets := fun q => if q = player then g.bets player + bet else g.bets q,
            pot := g.pot + bet }
    else Except.error ApiError.unknownAction
  else Except.error ApiError.playerNotActive

/-- One request against a stored game: a player action, or one of the /flop,
/turn, /river reveal endpoints (which call the unguarded PokerGame methods). -/
inductive Req where
  | act (player : String) (action : String) (amount : Option Int)
  | flop
  | turn
  | river
deriving DecidableEq, Repr

/-- Executing one request: a failing action raises HTTPException and leaves the
stored game unchanged; the reveal endpoints apply the PokerGame methods
unconditionally, exactly as the code does. -/
def stepReq (g : PokerGame) : Req → PokerGame
  | Req.act p a amt =>
    match player_action g p a amt with
    | Except.ok g' => g'
    | Except.error _ => g
  | Req.flop => g.flop
  | Req.turn => g.turn
  | Req.river => g.river

/-- A sequence of requests against a stored game. -/
def runReqs (g : PokerGame) (reqs : List Req) : PokerGame := reqs.foldl stepReq g

/-- A request that is not a fold action. -/
def noFoldReq : Req → Prop
  | Req.act _ a _ => a ≠ "fold"
  | _ => True

/-- The game-control branch of websockets/handlers.handle_game_control: flop is
applied only on an empty community, turn only at length 3, river only at
length 4; every other command (including a mistimed reveal and showdown)
leaves the game unchanged (the code logs an error and returns). -/
def handle_game_control (g : PokerGame) (command : String) : PokerGame :=
  if command = "flop" ∧ g.community.length = 0 then g.flop
  else if command = "turn" ∧ g.community.length = 3 then g.turn
  else if command = "river" ∧ g.community.length = 4 then g.river
  else g

/-- ai_agent.ai_choose_action: random.choice of fold/call/raise is modelled by
the action parameter; the amount is current_bet + 10 on a raise and absent
otherwise.  The player_name argument is unused by the code as well. -/
def ai_choose_action (game_state : StateDict) (_player_name : String)
    (action : String) : String × Option Int :=
  (action, if action = "raise" then some (game_state.current_bet + 10) else none)

/-- The hand_ranks dict of PokerAIModel.evaluate_hand_strength; .get(rank, 0)
defaults to 0 on an unknown rank. -/
def hand_ranks : String → Rat
  | "2" => 2
  | "3" => 3
  | "4" => 4
  | "5" => 5
  | "6" => 6
  | "7" => 7
  | "8" => 8
  | "9" => 9
  | "10" => 10
  | "J" => 11
  | "Q" => 12
  | "K" => 13
  | "A" => 14
  | _ => 0

/-- PokerAIModel.evaluate_hand_strength over card tokens: ranks are the tokens
minus their final character, base strength is the sum of the hole values over
28, plus 0.3 for a pocket pair (exactly two hole ranks, equal), plus 0.1 per
hole rank present among the community ranks, clamped to [0, 1].  The code's
`if community_ranks:` guard is the identity here since membership in an empty
list already contributes nothing.  Float arithmetic is modelled over Rat;
every theorem below evaluates it only where the two agree. -/
def evaluate_hand_strength (player_hand : List String) (community : List String) :
    Rat :=
  let player_ranks := player_hand.map (fun card => card.dropRight 1)
  let community_ranks := community.map (fun card => card.dropRight 1)
  let player_values := player_ranks.map hand_ranks
  let base := player_values.sum / 28
  let pairBonus : Rat :=
    match player_ranks with
    | [a, b] => if a = b then 3 / 10 else 0
    | _ => 0
  let matchBonus : Rat :=
    (player_ranks.map (fun r => if r ∈ community_ranks then (1 : Rat) / 10 else 0)).sum
  min (max (base + pairBonus + matchBonus) 0) 1

/-- PokerAIModel.predict_action.  The trained RandomForest self.model.predict
is persisted external state and is modelled as the model parameter mapping the
feature vector to the predicted class (0 = fold, 1 = call, anything else falls
into the raise branch, as in the code's if/elif/else). -/
def predict_action (model : List Rat → Int) (game_state : StateDict)
    (player_name : String) : String × Option Int :=
  let player_hand := dictGet game_state.hands player_name []
  let community := game_state.community
  let hand_strength := evaluate_hand_strength player_hand community
  let current_bet := game_state.current_bet
  let player_chips := 1000 - dictGet game_state.bets player_name 0
  let features : List Rat :=
    [(game_state.pot : Rat), (current_bet : Rat), (player_chips : Rat),
     hand_strength, (community.length : Rat),
     (game_state.active_players.length : Rat)]
  let action_code := model features
  if action_code = 0 then ("fold", none)
  else if action_code = 1 then ("call", none)
  else
    let min_raise := current_bet + 10
    if hand_strength > 8 / 10 then ("raise", some (min (current_bet * 3) player_chips))
    else if hand_strength > 6 / 10 then ("raise", some (min (current_bet * 2) player_chips))
    else ("raise", some min_raise)

/-- ConnectionManager._create_player_view: every hands entry of a player other
than the observer has each card replaced by the "??" placeholder; the
observer's own entry and all remaining snapshot fields are kept. -/
def create_player_view (game_state : StateDict) (username : String) : StateDict :=
  { game_state with
    hands := game_state.hands.map (fun e =>
      if e.1 = username then e else (e.1, e.2.map (fun _ => "??"))) }

/-- Modelled from the spec (section 4.3): the numeric rank value, 2..14 with
Ace high, of a card rank; used only to compare the code's evaluator against
the spec's wording.  0 on a rank outside the 13 real ones. -/
def specRankValue : String → Int
  | "2" => 2
  | "3" => 3
  | "4" => 4
  | "5" => 5
  | "6" => 6
  | "7" => 7
  | "8" => 8
  | "9" => 9
  | "10" => 10
  | "J" => 11
  | "Q" => 12
  | "K" => 13
  | "A" => 14
  | _ => 0

/-- Modelled from the spec (section 4.3): the numeric rank value of the single
highest-ranked card across hole + community.  The fold start 1 is below every
real card value and is never the result on nonempty input of real cards. -/
def specHighestCardValue (player_hand community : List Card) : Int :=
  ((player_hand ++ community).map (fun c => specRankValue c.rank)).foldl max 1

/-- The deck order used to reconstruct a game in the C1 counterexample: the
canonical deck with the club queen and the club ace transposed (a legitimate
shuffle outcome). -/
def c1_deckOrder2 : List Card :=
  fullDeck.map (fun c =>
    if c = (⟨'♣', "Q"⟩ : Card) then (⟨'♣', "A"⟩ : Card)
    else if c = (⟨'♣', "A"⟩ : Card) then (⟨'♣', "Q"⟩ : Card) else c)

/-- A concrete one-player game used in the C10 witness: spade-suited hand and
community. -/
def c10_game1 : PokerGame :=
  { players := ["P"]
    hands := fun _ => [⟨'♠', "A"⟩, ⟨'♠', "K"⟩]
    deck := []
    community := [⟨'♠', "Q"⟩]
    pot := 0
    current_bet := 0
    active_players := ["P"]
    bets := fun _ => 0 }

/-- The C10 witness game again with the same ranks carried by other suits. -/
def c10_game2 : PokerGame :=
  { players := ["P"]
    hands := fun _ => [⟨'♥', "A"⟩, ⟨'♦', "K"⟩]
    deck := []
    community := [⟨'♣', "Q"⟩]
    pot := 0
    current_bet := 0
    active_players := ["P"]
    bets := fun _ => 0 }

/-- A concrete two-player snapshot used in the C9 witness. -/
def c9_state1 : StateDict :=
  { players := ["A", "B"]
    hands := [("A", ["A♠", "K♠"]), ("B", ["2♠", "3♠"])]
    community := []
    pot := 0
    current_bet := 0
    active_players := ["A", "B"]
    bets := [("A", 0), ("B", 0)] }

/-- The C9 witness snapshot again, differing from c9_state1 only in player B's
hole cards. -/
def c9_state2 : StateDict :=
  { players := ["A", "B"]
    hands := [("A", ["A♠", "K♠"]), ("B", ["9♦", "Q♣"])]
    community := []
    pot := 0
    current_bet := 0
    active_players := ["A", "B"]
    bets := [("A", 0), ("B", 0)] }

/-- A concrete one-AI snapshot used against predict_action in C7: pocket aces,
no community cards, current_bet 0, no chips committed. -/
def c7_state : StateDict :=
  { players := ["ai"]
    hands := [("ai", ["A♠", "A♥"])]
    community := []
    pot := 0
    current_bet := 0
    active_players := ["ai"]
    bets := [("ai", 0)] }

/-! Helper lemmas shared by the claim theorems. -/

/-- The start value of an integer foldl-max is a lower bound of the result. -/
theorem le_foldl_max (l : List Int) : ∀ a : Int, a ≤ l.foldl max a := by
  induction l with
  | nil => intro a; exact le_refl a
  | cons x t ih => intro a; exact le_trans (le_max_left a x) (ih (max a x))

/-- Every member of the list is a lower bound of its foldl-max. -/
theorem foldl_max_le_of_mem (l : List Int) :
    ∀ (a x : Int), x ∈ l → x ≤ l.foldl max a := by
  induction l with
  | nil => intro a x hx; cases hx
  | cons y t ih =>
    intro a x hx
    rcases List.mem_cons.mp hx with h | h
    · subst h; exact le_trans (le_max_right a x) (le_foldl_max t (max a x))
    · exact ih (max a y) x h

/-- An integer foldl-max is its start value or one of the list members. -/
theorem foldl_max_eq_or_mem (l : List Int) :
    ∀ a : Int, l.foldl max a = a ∨ l.foldl max a ∈ l := by
  induction l with
  | nil => intro a; exact Or.inl rfl
  | cons x t ih =>
    intro a
    rcases ih (max a x) with h | h
    · rcases max_choice a x with hm | hm
      · exact Or.inl (by rw [List.foldl_cons, h, hm])
      · refine Or.inr ?_
        rw [List.foldl_cons, h, hm]
        exact List.mem_cons_self x t
    · exact Or.inr (List.mem_cons_of_mem x h)

/-- Binary max over the integers commutes with adding a constant. -/
theorem int_max_add (a b c : Int) : max (a + c) (b + c) = max a b + c := by
  rcases le_total a b with h | h
  · rw [max_eq_right h, max_eq_right (by omega)]
  · rw [max_eq_left h, max_eq_left (by omega)]

/-- Foldl-max over a list shifted by 2 is the shifted foldl-max. -/
theorem foldl_max_add_two (l : List Int) : ∀ a : Int,
    (l.map (fun x => x + 2)).foldl max (a + 2) = l.foldl max a + 2 := by
  induction l with
  | nil => intro a; rfl
  | cons x t ih =>
    intro a
    simp only [List.map_cons, List.foldl_cons]
    rw [int_max_add a x 2, ih]

/-- Summing a constant-zero map gives zero. -/
theorem sum_map_zero (l : List String) : (l.map (fun _ => (0 : Int))).sum = 0 := by
  induction l with
  | nil => rfl
  | cons x t ih => simp [ih]

/-- Pointwise update of a single key changes the sum over a duplicate-free list
containing the key by the difference at that key. -/
theorem sum_map_update (l : List String) (f : String → Int) (p : String) (v : Int) :
    l.Nodup → p ∈ l →
    (l.map (fun q => if q = p then v else f q)).sum = (l.map f).sum + (v - f p) := by
  induction l with
  | nil => intro _ h; cases h
  | cons x t ih =>
    intro hnd hp
    rcases List.nodup_cons.mp hnd with ⟨hx, hnt⟩
    rcases List.mem_cons.mp hp with h | h
    · subst h
      simp only [List.map_cons, List.sum_cons, if_pos rfl]
      have hmap : t.map (fun q => if q = p then v else f q) = t.map f := by
        apply List.map_congr_left
        intro q hq
        have hqx : q ≠ p := fun e => hx (e ▸ hq)
        simp [hqx]
      rw [hmap]
      simp only [if_true]
      ring
    · have hxp : x ≠ p := fun e => hx (e ▸ h)
      simp only [List.map_cons, List.sum_cons, if_neg hxp]
      rw [ih hnt h]; ring

/-- Mapping a list to a constant is replication. -/
theorem map_const_replicate (s : String) : ∀ l : List String,
    l.map (fun _ => s) = List.replicate l.length s := by
  intro l
  induction l with
  | nil => rfl
  | cons x t ih => simp [ih, List.replicate_succ]

/-- Case analysis of a successful player_action: the player was active and the
result is exactly the fold, call or raise update of the code. -/
theorem player_action_ok_cases (g : PokerGame) (p a : String) (amt : Option Int)
    (g' : PokerGame) (h : player_action g p a amt = Except.ok g') :
    p ∈ g.active_players ∧
    ((a = "fold" ∧ g' = { g with active_players := g.active_players.erase p }) ∨
     (a = "call" ∧ g' = { g with
                          bets := fun q => if q = p then g.bets p + (g.current_bet - g.bets p)
                                           else g.bets q,
                          pot := g.pot + (g.current_bet - g.bets p) }) ∨
     (∃ amount : Int, a = "raise" ∧ amt = some amount ∧ g.current_bet < amount ∧
        g' = { g with current_bet := amount,
                      bets := fun q => if q = p then g.bets p + (amount - g.bets p)
                                       else g.bets q,
                      pot := g.pot + (amount - g.bets p) })) := by
  unfold player_action at h
  split at h
  case isFalse => exact Except.noConfusion h
  case isTrue hmem =>
    refine ⟨hmem, ?_⟩
    split at h
    case isTrue hfold => exact Or.inl ⟨hfold, (Except.ok.inj h).symm⟩
    case isFalse hnfold =>
      split at h
      case isTrue hcall => exact Or.inr (Or.inl ⟨hcall, (Except.ok.inj h).symm⟩)
      case isFalse hncall =>
        split at h
        case isFalse hnraise => exact Except.noConfusion h
        case isTrue hraise =>
          cases amt with
          | none => exact Except.noConfusion h
          | some amount =>
            simp only [] at h
            split at h
            case isTrue => exact Except.noConfusion h
            case isFalse hgt =>
              exact Or.inr (Or.inr ⟨amount, hraise, rfl, lt_of_not_le hgt,
                (Except.ok.inj h).symm⟩)

/-- One request preserves the player list, keeps the active set inside the
player list, and preserves the pot-equals-sum-of-bets identity. -/
theorem stepReq_pot_inv (g : PokerGame) (r : Req)
    (hnd : g.players.Nodup)
    (hsub : ∀ q ∈ g.active_players, q ∈ g.players)
    (hpot : g.pot = (g.players.map g.bets).sum) :
    (stepReq g r).players = g.players ∧
    (∀ q ∈ (stepReq g r).active_players, q ∈ g.players) ∧
    (stepReq g r).pot = ((stepReq g r).players.map (stepReq g r).bets).sum := by
  cases r with
  | flop => exact ⟨rfl, hsub, hpot⟩
  | turn => exact ⟨rfl, hsub, hpot⟩
  | river => exact ⟨rfl, hsub, hpot⟩
  | act p a amt =>
    cases hres : player_action g p a amt with
    | error e =>
      have hstep : stepReq g (Req.act p a amt) = g := by simp [stepReq, hres]
      rw [hstep]
      exact ⟨rfl, hsub, hpot⟩
    | ok g' =>
      have hstep : stepReq g (Req.act p a amt) = g' := by simp [stepReq, hres]
      rw [hstep]
      rcases player_action_ok_cases g p a amt g' hres with ⟨hmem, hcase⟩
      rcases hcase with ⟨_, hg'⟩ | ⟨_, hg'⟩ | ⟨amount, _, _, _, hg'⟩
      · subst hg'
        exact ⟨rfl, fun q hq => hsub q (List.mem_of_mem_erase hq), hpot⟩
      · subst hg'
        refine ⟨rfl, hsub, ?_⟩
        show g.pot + (g.current_bet - g.bets p) =
          (g.players.map (fun q => if q = p then g.bets p + (g.current_bet - g.bets p)
                                   else g.bets q)).sum
        rw [sum_map_update g.players g.bets p _ hnd (hsub p hmem), ← hpot]
        ring
      · subst hg'
        refine ⟨rfl, hsub, ?_⟩
        show g.pot + (amount - g.bets p) =
          (g.players.map (fun q => if q = p then g.bets p + (amount - g.bets p)
                                   else g.bets q)).sum
        rw [sum_map_update g.players g.bets p _ hnd (hsub p hmem), ← hpot]
        ring

/-- The pot identity is preserved along any request sequence. -/
theorem runReqs_pot_inv : ∀ (reqs : List Req) (g : PokerGame),
    g.players.Nodup → (∀ q ∈ g.active_players, q ∈ g.players) →
    g.pot = (g.players.map g.bets).sum →
    (runReqs g reqs).players = g.players ∧
    (runReqs g reqs).pot = ((runReqs g reqs).players.map (runReqs g reqs).bets).sum := by
  intro reqs
  induction reqs with
  | nil => intro g _ _ h3; exact ⟨rfl, h3⟩
  | cons r rs ih =>
    intro g h1 h2 h3
    have hstep := stepReq_pot_inv g r h1 h2 h3
    have hnd' : (stepReq g r).players.Nodup := by rw [hstep.1]; exact h1
    have hsub' : ∀ q ∈ (stepReq g r).active_players, q ∈ (stepReq g r).players := by
      intro q hq
      rw [hstep.1]
      exact hstep.2.1 q hq
    have hrec := ih (stepReq g r) hnd' hsub' hstep.2.2
    have hrun : runReqs g (r :: rs) = runReqs (stepReq g r) rs := rfl
    constructor
    · rw [hrun, hrec.1, hstep.1]
    · rw [hrun]
      exact hrec.2

/-- C3: after any sequence of requests against a freshly dealt game, the pot
equals the sum of the bets over the (duplicate-free) player list. -/
theorem c3_pot_equals_sum_of_bets (players : List String) (deckOrder : List Card)
    (reqs : List Req) (hnd : players.Nodup) :
    (runReqs (PokerGame.init players deckOrder) reqs).pot =
      ((runReqs (PokerGame.init players deckOrder) reqs).players.map
        (runReqs (PokerGame.init players deckOrder) reqs).bets).sum := by
  have h1 : (PokerGame.init players deckOrder).players.Nodup := hnd
  have h2 : ∀ q ∈ (PokerGame.init players deckOrder).active_players,
      q ∈ (PokerGame.init players deckOrder).players := fun q hq => hq
  have h3 : (PokerGame.init players deckOrder).pot =
      ((PokerGame.init players deckOrder).players.map
        (PokerGame.init players deckOrder).bets).sum := by
    show (0 : Int) = (players.map (fun _ => (0 : Int))).sum
    rw [sum_map_zero]
  exact (runReqs_pot_inv reqs _ h1 h2 h3).2

/-- C3 witness: the pot identity after a concrete raise and call on a fresh
two-player game. -/
theorem c3_pot_equals_sum_of_bets_witness :
    (["A", "B"] : List String).Nodup ∧
    ((runReqs (PokerGame.init ["A", "B"] fullDeck)
        [Req.act ("B") ("raise") (some 20), Req.act ("A") ("call") none]).pot =
      ((runReqs (PokerGame.init ["A", "B"] fullDeck)
        [Req.act ("B") ("raise") (some 20), Req.act ("A") ("call") none]).players.map
        (runReqs (PokerGame.init ["A", "B"] fullDeck)
        [Req.act ("B") ("raise") (some 20), Req.act ("A") ("call") none]).bets).sum) :=
  ⟨by decide, c3_pot_equals_sum_of_bets ["A", "B"] fullDeck
    [Req.act ("B") ("raise") (some 20), Req.act ("A") ("call") none] (by decide)⟩

/-- One request keeps every active player's bet bounded by current_bet. -/
theorem stepReq_bet_upper (g : PokerGame) (r : Req)
    (h : ∀ q ∈ g.active_players, g.bets q ≤ g.current_bet) :
    ∀ q ∈ (stepReq g r).active_players, (stepReq g r).bets q ≤ (stepReq g r).current_bet := by
  cases r with
  | flop => exact h
  | turn => exact h
  | river => exact h
  | act p a amt =>
    cases hres : player_action g p a amt with
    | error e =>
      have hstep : stepReq g (Req.act p a amt) = g := by simp [stepReq, hres]
      rw [hstep]
      exact h
    | ok g' =>
      have hstep : stepReq g (Req.act p a amt) = g' := by simp [stepReq, hres]
      rw [hstep]
      rcases player_action_ok_cases g p a amt g' hres with ⟨hmem, hcase⟩
      rcases hcase with ⟨_, hg'⟩ | ⟨_, hg'⟩ | ⟨amount, _, _, hlt, hg'⟩
      · subst hg'
        exact fun q hq => h q (List.mem_of_mem_erase hq)
      · subst hg'
        intro q hq
        show (if q = p then g.bets p + (g.current_bet - g.bets p) else g.bets q) ≤
          g.current_bet
        by_cases hqp : q = p
        · rw [if_pos hqp]; omega
        · rw [if_neg hqp]; exact h q hq
      · subst hg'
        intro q hq
        show (if q = p then g.bets p + (amount - g.bets p) else g.bets q) ≤ amount
        by_cases hqp : q = p
        · rw [if_pos hqp]; omega
        · rw [if_neg hqp]
          exact le_trans (h q hq) (le_of_lt hlt)

/-- A non-fold request keeps current_bet attained by some active player's bet. -/
theorem stepReq_bet_attained (g : PokerGame) (r : Req) (hnf : noFoldReq r)
    (h : g.active_players ≠ [] → g.current_bet ∈ g.active_players.map g.bets) :
    (stepReq g r).active_players ≠ [] →
      (stepReq g r).current_bet ∈ (stepReq g r).active_players.map (stepReq g r).bets := by
  cases r with
  | flop => exact h
  | turn => exact h
  | river => exact h
  | act p a amt =>
    cases hres : player_action g p a amt with
    | error e =>
      have hstep : stepReq g (Req.act p a amt) = g := by simp [stepReq, hres]
      rw [hstep]
      exact h
    | ok g' =>
      have hstep : stepReq g (Req.act p a amt) = g' := by simp [stepReq, hres]
      rw [hstep]
      rcases player_action_ok_cases g p a amt g' hres with ⟨hmem, hcase⟩
      rcases hcase with ⟨hfold, _⟩ | ⟨_, hg'⟩ | ⟨amount, _, _, _, hg'⟩
      · exact absurd hfold hnf
      · subst hg'
        intro _
        refine List.mem_map.mpr ⟨p, hmem, ?_⟩
        show (if p = p then g.bets p + (g.current_bet - g.bets p) else g.bets p) =
          g.current_bet
        rw [if_pos rfl]
        ring
      · subst hg'
        intro _
        refine List.mem_map.mpr ⟨p, hmem, ?_⟩
        show (if p = p then g.bets p + (amount - g.bets p) else g.bets p) = amount
        rw [if_pos rfl]
        ring

/-- The bet upper bound holds after any request sequence from a state where it
holds. -/
theorem runReqs_bet_upper : ∀ (reqs : List Req) (g : PokerGame),
    (∀ q ∈ g.active_players, g.bets q ≤ g.current_bet) →
    ∀ q ∈ (runReqs g reqs).active_players,
      (runReqs g reqs).bets q ≤ (runReqs g reqs).current_bet := by
  intro reqs
  induction reqs with
  | nil => intro g h; exact h
  | cons r rs ih => intro g h; exact ih (stepReq g r) (stepReq_bet_upper g r h)

/-- Along a fold-free request sequence, attainment of current_bet among active
bets is preserved. -/
theorem runReqs_bet_attained : ∀ (reqs : List Req) (g : PokerGame),
    (∀ r ∈ reqs, noFoldReq r) →
    (g.active_players ≠ [] → g.current_bet ∈ g.active_players.map g.bets) →
    (runReqs g reqs).active_players ≠ [] →
      (runReqs g reqs).current_bet ∈
        (runReqs g reqs).active_players.map (runReqs g reqs).bets := by
  intro reqs
  induction reqs with
  | nil => intro g _ h; exact h
  | cons r rs ih =>
    intro g hnf h
    exact ih (stepReq g r) (fun r' hr' => hnf r' (List.mem_cons_of_mem r hr'))
      (stepReq_bet_attained g r (hnf r (List.mem_cons_self r rs)) h)

/-- C4 (amended): after any request sequence on a fresh game, current_bet is an
upper bound of the active players' bets, and if no fold occurred it is attained
by some active player's bet (hence equals their maximum). -/
theorem c4_current_bet_bounds (players : List String) (deckOrder : List Card)
    (reqs : List Req) :
    (∀ q ∈ (runReqs (PokerGame.init players deckOrder) reqs).active_players,
      (runReqs (PokerGame.init players deckOrder) reqs).bets q ≤
        (runReqs (PokerGame.init players deckOrder) reqs).current_bet) ∧
    ((∀ r ∈ reqs, noFoldReq r) →
      (runReqs (PokerGame.init players deckOrder) reqs).active_players ≠ [] →
      (runReqs (PokerGame.init players deckOrder) reqs).current_bet ∈
        (runReqs (PokerGame.init players deckOrder) reqs).active_players.map
          (runReqs (PokerGame.init players deckOrder) reqs).bets) := by
  constructor
  · apply runReqs_bet_upper
    intro q _
    show (0 : Int) ≤ 0
    exact le_refl 0
  · intro hnf
    apply runReqs_bet_attained reqs _ hnf
    intro hne
    show (0 : Int) ∈ players.map (fun _ => (0 : Int))
    cases hp : players with
    | nil => exact absurd hp hne
    | cons x t => exact List.mem_map.mpr ⟨x, List.mem_cons_self x t, rfl⟩

/-- C4 witness: the bound and the attainment after a concrete fold-free raise
and call on a fresh two-player game. -/
theorem c4_current_bet_bounds_witness :
    (∀ q ∈ (runReqs (PokerGame.init ["A", "B"] fullDeck)
        [Req.act ("B") ("raise") (some 20), Req.act ("A") ("call") none]).active_players,
      (runReqs (PokerGame.init ["A", "B"] fullDeck)
        [Req.act ("B") ("raise") (some 20), Req.act ("A") ("call") none]).bets q ≤
        (runReqs (PokerGame.init ["A", "B"] fullDeck)
        [Req.act ("B") ("raise") (some 20), Req.act ("A") ("call") none]).current_bet) ∧
    ((runReqs (PokerGame.init ["A", "B"] fullDeck)
        [Req.act ("B") ("raise") (some 20), Req.act ("A") ("call") none]).current_bet ∈
      (runReqs (PokerGame.init ["A", "B"] fullDeck)
        [Req.act ("B") ("raise") (some 20), Req.act ("A") ("call") none]).active_players.map
        (runReqs (PokerGame.init ["A", "B"] fullDeck)
        [Req.act ("B") ("raise") (some 20), Req.act ("A") ("call") none]).bets) :=
  ⟨(c4_current_bet_bounds ["A", "B"] fullDeck
      [Req.act ("B") ("raise") (some 20), Req.act ("A") ("call") none]).1,
   (c4_current_bet_bounds ["A", "B"] fullDeck
      [Req.act ("B") ("raise") (some 20), Req.act ("A") ("call") none]).2
      (by intro r hr; fin_cases hr <;> simp [noFoldReq]) (by decide)⟩

/-- C4 counterexample: on a fresh two-player game, A raises to 20 and then
folds; B remains active with bet 0 while current_bet stays 20, so current_bet
is not the maximum (indeed not even a member) of the active players' bets. -/
theorem c4_counterexample :
    ((runReqs (PokerGame.init ["A", "B"] fullDeck)
        [Req.act ("A") ("raise") (some 20), Req.act ("A") ("fold") none]).active_players =
      ["B"]) ∧
    ((runReqs (PokerGame.init ["A", "B"] fullDeck)
        [Req.act ("A") ("raise") (some 20), Req.act ("A") ("fold") none]).current_bet = 20) ∧
    ((runReqs (PokerGame.init ["A", "B"] fullDeck)
        [Req.act ("A") ("raise") (some 20), Req.act ("A") ("fold") none]).active_players.map
      (runReqs (PokerGame.init ["A", "B"] fullDeck)
        [Req.act ("A") ("raise") (some 20), Req.act ("A") ("fold") none]).bets = [0]) ∧
    ((runReqs (PokerGame.init ["A", "B"] fullDeck)
        [Req.act ("A") ("raise") (some 20), Req.act ("A") ("fold") none]).current_bet ∉
      (runReqs (PokerGame.init ["A", "B"] fullDeck)
        [Req.act ("A") ("raise") (some 20), Req.act ("A") ("fold") none]).active_players.map
      (runReqs (PokerGame.init ["A", "B"] fullDeck)
        [Req.act ("A") ("raise") (some 20), Req.act ("A") ("fold") none]).bets) := by
  refine ⟨by decide, by decide, by decide, by decide⟩

/-- C5 (amended): only the websocket game-control path guards the stage
transitions — there "flop" applies only to an empty community, "turn" only at
length 3 and "river" only at length 4, anything else leaving the state
unchanged (with a logged error, not an InvalidStageTransition failure) — while
the PokerGame.flop method itself (used unguarded by the REST /flop, /turn,
/river endpoints) appends three cards at any community length. -/
theorem c5_stage_guards (g : PokerGame) :
    (g.community.length ≠ 0 → handle_game_control g ("flop") = g) ∧
    (g.community.length ≠ 3 → handle_game_control g ("turn") = g) ∧
    (g.community.length ≠ 4 → handle_game_control g ("river") = g) ∧
    (g.community.length = 0 → 3 ≤ g.deck.length →
      (handle_game_control g ("flop")).community.length = 3) ∧
    (g.community.length = 3 → 1 ≤ g.deck.length →
      (handle_game_control g ("turn")).community.length = 4) ∧
    (g.community.length = 4 → 1 ≤ g.deck.length →
      (handle_game_control g ("river")).community.length = 5) ∧
    (3 ≤ g.deck.length →
      (g.flop).community.length = g.community.length + 3) := by
  refine ⟨?_, ?_, ?_, ?_, ?_, ?_, ?_⟩
  · intro h
    rw [handle_game_control, if_neg (fun hc => h hc.2),
      if_neg (fun hc => absurd hc.1 (by decide)),
      if_neg (fun hc => absurd hc.1 (by decide))]
  · intro h
    rw [handle_game_control, if_neg (fun hc => absurd hc.1 (by decide)),
      if_neg (fun hc => h hc.2),
      if_neg (fun hc => absurd hc.1 (by decide))]
  · intro h
    rw [handle_game_control, if_neg (fun hc => absurd hc.1 (by decide)),
      if_neg (fun hc => absurd hc.1 (by decide)),
      if_neg (fun hc => h hc.2)]
  · intro h0 hd
    rw [handle_game_control, if_pos ⟨rfl, h0⟩]
    simp only [PokerGame.flop, draw, List.length_append, List.length_reverse,
      List.length_drop]
    omega
  · intro h3 hd
    rw [handle_game_control, if_neg (fun hc => absurd hc.1 (by decide)),
      if_pos ⟨rfl, h3⟩]
    simp only [PokerGame.turn, draw, List.length_append, List.length_reverse,
      List.length_drop]
    omega
  · intro h4 hd
    rw [handle_game_control, if_neg (fun hc => absurd hc.1 (by decide)),
      if_neg (fun hc => absurd hc.1 (by decide)), if_pos ⟨rfl, h4⟩]
    simp only [PokerGame.river, draw, List.length_append, List.length_reverse,
      List.length_drop]
    omega
  · intro hd
    simp only [PokerGame.flop, draw, List.length_append, List.length_reverse,
      List.length_drop]
    omega

/-- C5 witness: on a fresh game the guarded flop succeeds exactly once (the
community reaches 3 cards) and a second guarded flop is refused unchanged. -/
theorem c5_stage_guards_witness :
    ((handle_game_control (PokerGame.init ["A", "B"] fullDeck) ("flop")).community.length
      = 3) ∧
    (handle_game_control ((PokerGame.init ["A", "B"] fullDeck).flop) ("flop") =
      (PokerGame.init ["A", "B"] fullDeck).flop) :=
  ⟨(c5_stage_guards (PokerGame.init ["A", "B"] fullDeck)).2.2.2.1 (by decide) (by decide),
   (c5_stage_guards ((PokerGame.init ["A", "B"] fullDeck).flop)).1 (by decide)⟩

/-- C5 counterexample: the REST-exposed PokerGame.flop is not guarded — on a
game whose community already has 3 cards a second flop succeeds, growing the
community to 6 cards instead of failing and leaving the state unchanged. -/
theorem c5_counterexample :
    ((PokerGame.init ["A", "B"] fullDeck).flop.community.length = 3) ∧
    ((PokerGame.init ["A", "B"] fullDeck).flop.flop.community.length = 6) ∧
    ((PokerGame.init ["A", "B"] fullDeck).flop.flop.community ≠
      (PokerGame.init ["A", "B"] fullDeck).flop.community) := by
  refine ⟨by decide, by decide, by decide⟩

/-- C6: a raise whose amount is absent or at most current_bet by an active
player is rejected with the invalid-raise failure, and executing the request
leaves the stored game unchanged. -/
theorem c6_invalid_raise_rejected (g : PokerGame) (player : String)
    (amount : Option Int) (hactive : player ∈ g.active_players)
    (hbad : ∀ a : Int, amount = some a → a ≤ g.current_bet) :
    player_action g player ("raise") amount =
      Except.error ApiError.invalidRaiseAmount ∧
    stepReq g (Req.act player ("raise") amount) = g := by
  have h1 : player_action g player ("raise") amount =
      Except.error ApiError.invalidRaiseAmount := by
    unfold player_action
    rw [if_pos hactive, if_neg (by decide : ¬("raise" = "fold")),
      if_neg (by decide : ¬("raise" = "call")), if_pos rfl]
    cases amount with
    | none => rfl
    | some a => exact if_pos (hbad a rfl)
  exact ⟨h1, by simp [stepReq, h1]⟩

/-- C6 witness: on a fresh two-player game, an active player's raise to 0 (not
exceeding the current bet 0) is rejected and the game is unchanged. -/
theorem c6_invalid_raise_rejected_witness :
    (player_action (PokerGame.init ["A", "B"] fullDeck) ("A") ("raise") (some 0) =
      Except.error ApiError.invalidRaiseAmount) ∧
    (stepReq (PokerGame.init ["A", "B"] fullDeck) (Req.act ("A") ("raise") (some 0)) =
      PokerGame.init ["A", "B"] fullDeck) :=
  c6_invalid_raise_rejected (PokerGame.init ["A", "B"] fullDeck) ("A") (some 0)
    (by decide) (by intro a ha; cases ha; decide)

/-- C1 (failing run): serialize a freshly dealt one-player game (hole cards
club ace and club king), reconstruct it with create_poker_game_from_state
under the legitimate shuffle c1_deckOrder2, and reveal the flop: the club ace
then appears both in the player's restored hole hand and in the community,
because the reconstruction deals from a fresh deck instead of restoring the
original one.  Card uniqueness and the deck-plus-dealt partition are violated
on a reachable state. -/
theorem c1_duplicate_card_after_restore :
    c1_deckOrder2.Perm fullDeck ∧
    ((⟨'♣', "A"⟩ : Card) ∈ ((create_poker_game_from_state
        (PokerGame.init ["A"] fullDeck).to_dict c1_deckOrder2).flop).hands "A") ∧
    ((⟨'♣', "A"⟩ : Card) ∈ ((create_poker_game_from_state
        (PokerGame.init ["A"] fullDeck).to_dict c1_deckOrder2).flop).community) := by
  refine ⟨by decide, by decide, by decide⟩

/-- C2 counterexample: hole cards ace of spades and king of hearts with an
empty community — distinct hole ranks and no community cards make both claimed
bonuses vanish, so the claim forces the score to be the highest numeric rank
value 14; the code returns the RANKS index 12 instead. -/
theorem c2_counterexample :
    (evaluate_hand [(⟨'♠', "A"⟩ : Card), (⟨'♥', "K"⟩ : Card)] [] = 12) ∧
    (specHighestCardValue [(⟨'♠', "A"⟩ : Card), (⟨'♥', "K"⟩ : Card)] [] = 14) ∧
    (evaluate_hand [(⟨'♠', "A"⟩ : Card), (⟨'♥', "K"⟩ : Card)] [] ≠
      specHighestCardValue [(⟨'♠', "A"⟩ : Card), (⟨'♥', "K"⟩ : Card)] []) := by
  refine ⟨by decide, by decide, by decide⟩

/-- On the thirteen real ranks the spec's 2..14 value is the code's RANKS
index shifted by two. -/
theorem specRankValue_eq_rank_order (r : String) (h : r ∈ RANKS) :
    specRankValue r = rank_order r + 2 := by
  fin_cases h <;> rfl

/-- C2 (amended): on any nonempty collection of real cards the evaluator
returns the 0-based RANKS index of the highest card, i.e. the spec's 2..14
numeric value of the highest card minus 2, with no pocket-pair or
community-match bonuses. -/
theorem c2_evaluate_hand_highest_index (player_hand community : List Card)
    (_hne : player_hand ++ community ≠ [])
    (hvalid : ∀ c ∈ player_hand ++ community, c.rank ∈ RANKS) :
    evaluate_hand player_hand community =
      specHighestCardValue player_hand community - 2 := by
  unfold evaluate_hand specHighestCardValue
  have hmap : (player_hand ++ community).map (fun c => specRankValue c.rank) =
      ((player_hand ++ community).map (fun c => rank_order c.rank)).map
        (fun x => x + 2) := by
    rw [List.map_map]
    apply List.map_congr_left
    intro c hc
    exact specRankValue_eq_rank_order c.rank (hvalid c hc)
  rw [hmap]
  have hone : (1 : Int) = -1 + 2 := by norm_num
  rw [hone, foldl_max_add_two]
  ring

/-- C2 amended-claim witness: the relation evaluated at the concrete
ace-king hand used in the counterexample. -/
theorem c2_evaluate_hand_highest_index_witness :
    (([(⟨'♠', "A"⟩ : Card), (⟨'♥', "K"⟩ : Card)] ++ ([] : List Card)) ≠ []) ∧
    (∀ c ∈ [(⟨'♠', "A"⟩ : Card), (⟨'♥', "K"⟩ : Card)] ++ ([] : List Card),
      c.rank ∈ RANKS) ∧
    (evaluate_hand [(⟨'♠', "A"⟩ : Card), (⟨'♥', "K"⟩ : Card)] [] =
      specHighestCardValue [(⟨'♠', "A"⟩ : Card), (⟨'♥', "K"⟩ : Card)] [] - 2) :=
  ⟨by decide, by decide,
   c2_evaluate_hand_highest_index [(⟨'♠', "A"⟩ : Card), (⟨'♥', "K"⟩ : Card)] []
     (by decide) (by decide)⟩

/-- The c7_state hand (pocket aces, empty community) has heuristic strength
exactly 1: 28/28 plus the 0.3 pair bonus, clamped to 1. -/
theorem c7_state_strength :
    evaluate_hand_strength (dictGet c7_state.hands ("ai") []) c7_state.community = 1 := by
  have hhand : dictGet c7_state.hands ("ai") [] = ["A♠", "A♥"] := by decide
  have hranks : (["A♠", "A♥"].map (fun card => card.dropRight 1)) = ["A", "A"] := by
    decide
  rw [hhand]
  show evaluate_hand_strength ["A♠", "A♥"] [] = 1
  unfold evaluate_hand_strength
  rw [hranks]
  show min (max ((([("A" : String), "A"].map hand_ranks).sum / 28 +
    (if ("A" : String) = "A" then (3 : Rat) / 10 else 0) +
    ([("A" : String), "A"].map (fun r =>
      if r ∈ (([] : List String).map (fun card => card.dropRight 1)) then (1 : Rat) / 10
      else 0)).sum)) 0) 1 = 1
  simp only [List.map_nil, List.map_cons, List.sum_cons, List.sum_nil,
    List.not_mem_nil, if_neg, if_pos, hand_ranks]
  norm_num

/-- C7 counterexample: with the classifier predicting the raise class, the
heuristic agent on c7_state (current_bet 0, pocket aces giving strength 1 >
0.8) returns a raise of amount min(0*3, 1000) = 0, which is not strictly
greater than current_bet. -/
theorem c7_counterexample :
    ((predict_action (fun _ => 2) c7_state ("ai")).1 = "raise") ∧
    ((predict_action (fun _ => 2) c7_state ("ai")).2 = some 0) ∧
    (c7_state.current_bet = 0) ∧
    (¬ (0 : Int) > c7_state.current_bet) := by
  have hs := c7_state_strength
  have h8 : evaluate_hand_strength (dictGet c7_state.hands ("ai") [])
      c7_state.community > 8 / 10 := by rw [hs]; norm_num
  refine ⟨?_, ?_, by decide, by decide⟩
  · unfold predict_action
    rw [if_neg (by decide : ¬((2 : Int) = 0)), if_neg (by decide : ¬((2 : Int) = 1)),
      if_pos h8]
  · unfold predict_action
    rw [if_neg (by decide : ¬((2 : Int) = 0)), if_neg (by decide : ¬((2 : Int) = 1)),
      if_pos h8]
    show some (min (c7_state.current_bet * 3) (1000 - dictGet c7_state.bets ("ai") 0)) =
      some 0
    decide

/-- C7 (amended): whenever the rule-based random agent returns a raise, the
amount is exactly current_bet + 10, hence strictly greater than current_bet;
the heuristic agent offers no such guarantee (see the counterexample). -/
theorem c7_random_agent_raise_exceeds_bet (game_state : StateDict)
    (player_name action : String)
    (h : (ai_choose_action game_state player_name action).1 = "raise") :
    ((ai_choose_action game_state player_name action).2 =
      some (game_state.current_bet + 10)) ∧
    (∀ a : Int, (ai_choose_action game_state player_name action).2 = some a →
      game_state.current_bet < a) := by
  have ha : action = "raise" := h
  subst ha
  constructor
  · show (if ("raise" : String) = "raise" then some (game_state.current_bet + 10)
      else none) = some (game_state.current_bet + 10)
    rw [if_pos rfl]
  · intro a hsome
    have : (if ("raise" : String) = "raise" then some (game_state.current_bet + 10)
        else none) = some a := hsome
    rw [if_pos rfl] at this
    cases this
    omega

/-- C7 amended-claim witness: the random agent raising on a concrete snapshot
proposes current_bet + 10 = 10, strictly above the current bet 0. -/
theorem c7_random_agent_raise_exceeds_bet_witness :
    ((ai_choose_action c7_state ("ai") ("raise")).1 = "raise") ∧
    ((ai_choose_action c7_state ("ai") ("raise")).2 = some (c7_state.current_bet + 10)) ∧
    (∀ a : Int, (ai_choose_action c7_state ("ai") ("raise")).2 = some a →
      c7_state.current_bet < a) :=
  ⟨rfl,
   (c7_random_agent_raise_exceeds_bet c7_state ("ai") ("raise") rfl).1,
   (c7_random_agent_raise_exceeds_bet c7_state ("ai") ("raise") rfl).2⟩

/-- A foldl-max over elements all bounded by the start value is the start. -/
theorem foldl_max_of_le (l : List Int) : ∀ a : Int, (∀ x ∈ l, x ≤ a) →
    l.foldl max a = a := by
  induction l with
  | nil => intro a _; rfl
  | cons x t ih =>
    intro a h
    rw [List.foldl_cons, max_eq_left (h x (List.mem_cons_self x t))]
    exact ih a (fun y hy => h y (List.mem_cons_of_mem x hy))

/-- Characterization of the decide_winner accumulation loop: the running best
becomes the foldl-max of the scores, and the winner accumulator becomes the
prior winners plus the score-equal filter when no score beats the incoming
best, or the filter of the maximal scores alone when some does. -/
theorem decideWinnerLoop_spec (game : PokerGame) :
    ∀ (l : List String) (best : Int) (winners : List String),
    ((decideWinnerLoop game l best winners).1 =
      (l.map (fun p => evaluate_hand (game.hands p) game.community)).foldl max best) ∧
    ((∀ p ∈ l, evaluate_hand (game.hands p) game.community ≤ best) →
      (decideWinnerLoop game l best winners).2 =
        winners ++ l.filter (fun p =>
          decide (evaluate_hand (game.hands p) game.community = best))) ∧
    ((¬ ∀ p ∈ l, evaluate_hand (game.hands p) game.community ≤ best) →
      (decideWinnerLoop game l best winners).2 =
        l.filter (fun p => decide (evaluate_hand (game.hands p) game.community =
          (decideWinnerLoop game l best winners).1))) := by
  intro l
  induction l with
  | nil =>
    intro best winners
    refine ⟨rfl, fun _ => by simp [decideWinnerLoop], fun hc => absurd ?_ hc⟩
    intro p hp
    cases hp
  | cons p ps ih =>
    intro best winners
    set s := evaluate_hand (game.hands p) game.community with hs
    by_cases h1 : best < s
    · have hloop : decideWinnerLoop game (p :: ps) best winners =
          decideWinnerLoop game ps s [p] := by
        simp only [decideWinnerLoop]
        rw [if_pos h1]
      refine ⟨?_, ?_, ?_⟩
      · rw [hloop, (ih s [p]).1]
        simp only [List.map_cons, List.foldl_cons]
        rw [max_eq_right (le_of_lt h1)]
      · intro hall
        exact absurd (hall p (List.mem_cons_self p ps)) (not_le.mpr h1)
      · intro _
        by_cases hall : ∀ q ∈ ps, evaluate_hand (game.hands q) game.community ≤ s
        · have hM : (decideWinnerLoop game ps s [p]).1 = s := by
            rw [(ih s [p]).1]
            refine foldl_max_of_le _ s ?_
            intro x hx
            rcases List.mem_map.mp hx with ⟨q, hq, rfl⟩
            exact hall q hq
          rw [hloop, (ih s [p]).2.1 hall, hM]
          simp only [List.filter_cons, decide_eq_true_eq]
          simp only [if_true]
          rfl
        · have hex : ∃ q ∈ ps, s < evaluate_hand (game.hands q) game.community := by
            have h := hall
            push_neg at h
            exact h
          have hMgt : s < (decideWinnerLoop game ps s [p]).1 := by
            rw [(ih s [p]).1]
            rcases hex with ⟨q, hq, hgt⟩
            exact lt_of_lt_of_le hgt
              (foldl_max_le_of_mem _ s _ (List.mem_map.mpr ⟨q, hq, rfl⟩))
          rw [hloop, (ih s [p]).2.2 hall]
          simp only [List.filter_cons, decide_eq_true_eq]
          rw [if_neg (ne_of_lt hMgt)]
    · have hle : s ≤ best := not_lt.mp h1
      by_cases h2 : s = best
      · have hloop : decideWinnerLoop game (p :: ps) best winners =
            decideWinnerLoop game ps best (winners ++ [p]) := by
          simp only [decideWinnerLoop]
          rw [if_neg h1, if_pos h2]
        refine ⟨?_, ?_, ?_⟩
        · rw [hloop, (ih best (winners ++ [p])).1]
          simp only [List.map_cons, List.foldl_cons]
          rw [max_eq_left hle]
        · intro hall
          have hall' : ∀ q ∈ ps, evaluate_hand (game.hands q) game.community ≤ best :=
            fun q hq => hall q (List.mem_cons_of_mem p hq)
          rw [hloop, (ih best (winners ++ [p])).2.1 hall']
          simp only [List.filter_cons, decide_eq_true_eq]
          rw [if_pos h2, List.append_assoc]
          rfl
        · intro hnall
          have hnall' : ¬ ∀ q ∈ ps, evaluate_hand (game.hands q) game.community ≤ best := by
            intro hc
            apply hnall
            intro q hq
            rcases List.mem_cons.mp hq with hqp | hqs
            · subst hqp; exact hle
            · exact hc q hqs
          have hex : ∃ q ∈ ps, best < evaluate_hand (game.hands q) game.community := by
            have h := hnall'
            push_neg at h
            exact h
          have hMgt : best < (decideWinnerLoop game ps best (winners ++ [p])).1 := by
            rw [(ih best (winners ++ [p])).1]
            rcases hex with ⟨q, hq, hgt⟩
            exact lt_of_lt_of_le hgt
              (foldl_max_le_of_mem _ best _ (List.mem_map.mpr ⟨q, hq, rfl⟩))
          rw [hloop, (ih best (winners ++ [p])).2.2 hnall']
          simp only [List.filter_cons, decide_eq_true_eq]
          rw [if_neg (fun hc => absurd (h2.symm.trans hc) (ne_of_lt hMgt))]
      · have hlt : s < best := lt_of_le_of_ne hle h2
        have hloop : decideWinnerLoop game (p :: ps) best winners =
            decideWinnerLoop game ps best winners := by
          simp only [decideWinnerLoop]
          rw [if_neg h1, if_neg h2]
        refine ⟨?_, ?_, ?_⟩
        · rw [hloop, (ih best winners).1]
          simp only [List.map_cons, List.foldl_cons]
          rw [max_eq_left hle]
        · intro hall
          have hall' : ∀ q ∈ ps, evaluate_hand (game.hands q) game.community ≤ best :=
            fun q hq => hall q (List.mem_cons_of_mem p hq)
          rw [hloop, (ih best winners).2.1 hall']
          simp only [List.filter_cons, decide_eq_true_eq]
          rw [if_neg h2]
        · intro hnall
          have hnall' : ¬ ∀ q ∈ ps, evaluate_hand (game.hands q) game.community ≤ best := by
            intro hc
            apply hnall
            intro q hq
            rcases List.mem_cons.mp hq with hqp | hqs
            · subst hqp; exact hle
            · exact hc q hqs
          have hMge : best ≤ (decideWinnerLoop game ps best winners).1 := by
            rw [(ih best winners).1]
            exact le_foldl_max _ best
          rw [hloop, (ih best winners).2.2 hnall']
          simp only [List.filter_cons, decide_eq_true_eq]
          rw [if_neg (ne_of_lt (lt_of_lt_of_le hlt hMge))]

/-- Every card of the real 52-card deck has a nonnegative RANKS index. -/
theorem fullDeck_rank_order_nonneg : ∀ c ∈ fullDeck, 0 ≤ rank_order c.rank := by
  decide

/-- A player whose hand contains a real card scores at least 0. -/
theorem score_nonneg_of_mem (game : PokerGame) (p : String) (c : Card)
    (hc : c ∈ game.hands p) (hdeck : c ∈ fullDeck) :
    0 ≤ evaluate_hand (game.hands p) game.community := by
  have hval : 0 ≤ rank_order c.rank := fullDeck_rank_order_nonneg c hdeck
  have hmem : rank_order c.rank ∈
      ((game.hands p ++ game.community).map (fun d => rank_order d.rank)) :=
    List.mem_map.mpr ⟨c, List.mem_append_left _ hc, rfl⟩
  exact le_trans hval (foldl_max_le_of_mem _ (-1) _ hmem)

/-- C8: on a game whose active set is nonempty and whose active players all
hold two real cards, decide_winner returns exactly the active players of
maximal evaluate_hand score, and in particular never the empty list. -/
theorem c8_decide_winner_argmax (game : PokerGame)
    (hne : game.active_players ≠ [])
    (hhands : ∀ p ∈ game.active_players, (game.hands p).length = 2 ∧
      ∀ c ∈ game.hands p, c ∈ fullDeck) :
    decide_winner game ≠ [] ∧
    (∀ p, p ∈ decide_winner game ↔
      (p ∈ game.active_players ∧
        ∀ q ∈ game.active_players,
          evaluate_hand (game.hands q) game.community ≤
            evaluate_hand (game.hands p) game.community)) := by
  have hscore : ∀ p ∈ game.active_players,
      0 ≤ evaluate_hand (game.hands p) game.community := by
    intro p hp
    rcases hhands p hp with ⟨hlen, hcards⟩
    have hpos : game.hands p ≠ [] := by
      intro hnil
      rw [hnil] at hlen
      exact absurd hlen (by decide)
    rcases List.exists_mem_of_ne_nil _ hpos with ⟨c, hc⟩
    exact score_nonneg_of_mem game p c hc (hcards c hc)
  rcases List.exists_mem_of_ne_nil _ hne with ⟨p0, hp0⟩
  have hnall : ¬ ∀ p ∈ game.active_players,
      evaluate_hand (game.hands p) game.community ≤ (-1 : Int) := by
    intro hc
    exact absurd (le_trans (hscore p0 hp0) (hc p0 hp0)) (by decide)
  have hspec := decideWinnerLoop_spec game game.active_players (-1) []
  have hw : decide_winner game =
      game.active_players.filter (fun p =>
        decide (evaluate_hand (game.hands p) game.community =
          (decideWinnerLoop game game.active_players (-1) []).1)) :=
    hspec.2.2 hnall
  set M := (decideWinnerLoop game game.active_players (-1) []).1 with hMdef
  have hMfold : M = (game.active_players.map
      (fun p => evaluate_hand (game.hands p) game.community)).foldl max (-1) :=
    hspec.1
  have hub : ∀ q ∈ game.active_players,
      evaluate_hand (game.hands q) game.community ≤ M := by
    intro q hq
    rw [hMfold]
    exact foldl_max_le_of_mem _ (-1) _ (List.mem_map.mpr ⟨q, hq, rfl⟩)
  have hattain : ∃ pm ∈ game.active_players,
      evaluate_hand (game.hands pm) game.community = M := by
    rcases foldl_max_eq_or_mem (game.active_players.map
        (fun p => evaluate_hand (game.hands p) game.community)) (-1) with h | h
    · exfalso
      have hge : 0 ≤ M := le_trans (hscore p0 hp0) (hub p0 hp0)
      rw [hMfold, h] at hge
      exact absurd hge (by decide)
    · rw [← hMfold] at h
      rcases List.mem_map.mp h with ⟨pm, hpm, he⟩
      exact ⟨pm, hpm, he⟩
  constructor
  · rcases hattain with ⟨pm, hpm, he⟩
    have : pm ∈ decide_winner game := by
      rw [hw]
      exact List.mem_filter.mpr ⟨hpm, decide_eq_true he⟩
    exact List.ne_nil_of_mem this
  · intro p
    rw [hw]
    constructor
    · intro hp
      rcases List.mem_filter.mp hp with ⟨hpa, hpd⟩
      have hpe : evaluate_hand (game.hands p) game.community = M :=
        of_decide_eq_true hpd
      refine ⟨hpa, ?_⟩
      intro q hq
      rw [hpe]
      exact hub q hq
    · intro ⟨hpa, hmax⟩
      rcases hattain with ⟨pm, hpm, he⟩
      have hpe : evaluate_hand (game.hands p) game.community = M :=
        le_antisymm (hub p hpa) (he ▸ hmax pm hpm)
      exact List.mem_filter.mpr ⟨hpa, decide_eq_true hpe⟩

/-- C8 witness: on a freshly dealt two-player game the winner set is the
argmax of the scores and is nonempty. -/
theorem c8_decide_winner_argmax_witness :
    ((PokerGame.init ["A", "B"] fullDeck).active_players ≠ []) ∧
    (∀ p ∈ (PokerGame.init ["A", "B"] fullDeck).active_players,
      ((PokerGame.init ["A", "B"] fullDeck).hands p).length = 2 ∧
      ∀ c ∈ (PokerGame.init ["A", "B"] fullDeck).hands p, c ∈ fullDeck) ∧
    (decide_winner (PokerGame.init ["A", "B"] fullDeck) ≠ []) :=
  ⟨by decide, by decide,
   (c8_decide_winner_argmax (PokerGame.init ["A", "B"] fullDeck)
     (by decide) (by decide)).1⟩

/-- The hand-masking map of _create_player_view sends entrywise-compatible
hands tables (same player names and hand sizes, identical hands at the
observer) to the same masked table. -/
theorem maskHands_congr (username : String) :
    ∀ (l₁ l₂ : List (String × List String)), l₁.length = l₂.length →
    (∀ e ∈ l₁.zip l₂, e.1.1 = e.2.1 ∧ e.1.2.length = e.2.2.length ∧
      (e.1.1 = username → e.1.2 = e.2.2)) →
    l₁.map (fun e => if e.1 = username then e else (e.1, e.2.map (fun _ => "??"))) =
      l₂.map (fun e => if e.1 = username then e else (e.1, e.2.map (fun _ => "??"))) := by
  intro l₁
  induction l₁ with
  | nil =>
    intro l₂ hlen _
    cases l₂ with
    | nil => rfl
    | cons y u => exact absurd hlen (by simp)
  | cons x t ih =>
    intro l₂ hlen hent
    cases l₂ with
    | nil => exact absurd hlen (by simp)
    | cons y u =>
      obtain ⟨x1, x2⟩ := x
      obtain ⟨y1, y2⟩ := y
      have hhead := hent ((x1, x2), (y1, y2)) (by
        rw [List.zip_cons_cons]
        exact List.mem_cons_self _ _)
      rcases hhead with ⟨hname, hsz, hown⟩
      simp only at hname hsz hown
      have htail : ∀ e ∈ t.zip u, e.1.1 = e.2.1 ∧ e.1.2.length = e.2.2.length ∧
          (e.1.1 = username → e.1.2 = e.2.2) := by
        intro e he
        refine hent e ?_
        rw [List.zip_cons_cons]
        exact List.mem_cons_of_mem _ he
      have hlen' : t.length = u.length := by
        simp only [List.length_cons] at hlen
        omega
      simp only [List.map_cons]
      rw [ih u hlen' htail]
      congr 1
      by_cases hu : x1 = username
      · rw [if_pos hu, if_pos (hname ▸ hu)]
        exact Prod.ext hname (hown hu)
      · rw [if_neg hu, if_neg (hname ▸ hu)]
        refine Prod.ext hname ?_
        show x2.map (fun _ => "??") = y2.map (fun _ => "??")
        rw [map_const_replicate, map_const_replicate, hsz]

/-- C9: the per-observer game_update view keeps every non-hands field and the
observer's own hand, replaces each card of every other player's hand by the
two-character "??" placeholder (preserving the count), and is therefore
identical for two snapshots that differ only in other players' hole cards. -/
theorem c9_player_view (gs1 gs2 : StateDict) (username : String)
    (hplayers : gs1.players = gs2.players)
    (hcomm : gs1.community = gs2.community)
    (hpot : gs1.pot = gs2.pot)
    (hcb : gs1.current_bet = gs2.current_bet)
    (hact : gs1.active_players = gs2.active_players)
    (hbets : gs1.bets = gs2.bets)
    (hlen : gs1.hands.length = gs2.hands.length)
    (hentries : ∀ e ∈ gs1.hands.zip gs2.hands, e.1.1 = e.2.1 ∧
      e.1.2.length = e.2.2.length ∧ (e.1.1 = username → e.1.2 = e.2.2)) :
    (("??" : String).length = 2) ∧
    ((create_player_view gs1 username).players = gs1.players ∧
     (create_player_view gs1 username).community = gs1.community ∧
     (create_player_view gs1 username).pot = gs1.pot ∧
     (create_player_view gs1 username).current_bet = gs1.current_bet ∧
     (create_player_view gs1 username).active_players = gs1.active_players ∧
     (create_player_view gs1 username).bets = gs1.bets) ∧
    (∀ cards, (username, cards) ∈ gs1.hands →
      (username, cards) ∈ (create_player_view gs1 username).hands) ∧
    (∀ p cards, (p, cards) ∈ gs1.hands → p ≠ username →
      (p, List.replicate cards.length "??") ∈ (create_player_view gs1 username).hands) ∧
    (create_player_view gs1 username = create_player_view gs2 username) := by
  refine ⟨by decide, ⟨rfl, rfl, rfl, rfl, rfl, rfl⟩, ?_, ?_, ?_⟩
  · intro cards hm
    refine List.mem_map.mpr ⟨(username, cards), hm, ?_⟩
    show (if username = username then ((username, cards) : String × List String)
      else (username, cards.map (fun _ => "??"))) = (username, cards)
    rw [if_pos rfl]
  · intro p cards hm hne
    refine List.mem_map.mpr ⟨(p, cards), hm, ?_⟩
    show (if p = username then ((p, cards) : String × List String)
      else (p, cards.map (fun _ => "??"))) = (p, List.replicate cards.length "??")
    rw [if_neg hne, map_const_replicate]
  · have hh := maskHands_congr username gs1.hands gs2.hands hlen hentries
    unfold create_player_view
    rw [hplayers, hcomm, hpot, hcb, hact, hbets, hh]


/-- C9 witness: two concrete snapshots differing only in player B's hole cards
yield the identical masked view for observer A, with B's cards replaced by two
"??" tokens and A's own hand intact. -/
theorem c9_player_view_witness :
    (create_player_view c9_state1 ("A") = create_player_view c9_state2 ("A")) ∧
    (("B", ["??", "??"]) ∈ (create_player_view c9_state1 ("A")).hands) ∧
    (("A", ["A♠", "K♠"]) ∈ (create_player_view c9_state1 ("A")).hands) := by
  refine ⟨?_, by decide, by decide⟩
  exact (c9_player_view c9_state1 c9_state2 ("A") rfl rfl rfl rfl rfl rfl
    (by decide) (by decide)).2.2.2.2

/-- evaluate_hand depends only on the rank sequences of its inputs. -/
theorem evaluate_hand_rank_congr (h1 h2 c1 c2 : List Card)
    (hh : h1.map Card.rank = h2.map Card.rank)
    (hc : c1.map Card.rank = c2.map Card.rank) :
    evaluate_hand h1 c1 = evaluate_hand h2 c2 := by
  unfold evaluate_hand
  have key : ∀ (a b : List Card), a.map Card.rank = b.map Card.rank →
      a.map (fun c => rank_order c.rank) = b.map (fun c => rank_order c.rank) := by
    intro a b hab
    rw [show (fun c => rank_order c.rank) = rank_order ∘ Card.rank from rfl,
      ← List.map_map, hab, List.map_map]
  rw [List.map_append, List.map_append, key h1 h2 hh, key c1 c2 hc]

/-- evaluate_hand_strength depends only on the rank parts of its tokens. -/
theorem evaluate_hand_strength_rank_congr (t1 t2 u1 u2 : List String)
    (ht : t1.map (fun card => card.dropRight 1) = t2.map (fun card => card.dropRight 1))
    (hu : u1.map (fun card => card.dropRight 1) = u2.map (fun card => card.dropRight 1)) :
    evaluate_hand_strength t1 u1 = evaluate_hand_strength t2 u2 := by
  unfold evaluate_hand_strength
  rw [ht, hu]

/-- The winner loop is the same for two games with pointwise equal scores. -/
theorem decideWinnerLoop_congr (g1 g2 : PokerGame)
    (hsc : ∀ p, evaluate_hand (g1.hands p) g1.community =
      evaluate_hand (g2.hands p) g2.community) :
    ∀ (l : List String) (best : Int) (winners : List String),
      decideWinnerLoop g1 l best winners = decideWinnerLoop g2 l best winners := by
  intro l
  induction l with
  | nil => intro best winners; rfl
  | cons p ps ih =>
    intro best winners
    simp only [decideWinnerLoop, hsc p]
    split_ifs <;> apply ih

/-- C10: hand scoring is suit-blind — the engine evaluator, the heuristic
strength and hence the showdown winner list are unchanged when suits vary
while the rank sequences (token rank parts) stay the same. -/
theorem c10_scoring_suit_blind :
    (∀ h1 h2 c1 c2 : List Card, h1.map Card.rank = h2.map Card.rank →
      c1.map Card.rank = c2.map Card.rank →
      evaluate_hand h1 c1 = evaluate_hand h2 c2) ∧
    (∀ t1 t2 u1 u2 : List String,
      t1.map (fun card => card.dropRight 1) = t2.map (fun card => card.dropRight 1) →
      u1.map (fun card => card.dropRight 1) = u2.map (fun card => card.dropRight 1) →
      evaluate_hand_strength t1 u1 = evaluate_hand_strength t2 u2) ∧
    (∀ g1 g2 : PokerGame, g1.active_players = g2.active_players →
      (∀ p, (g1.hands p).map Card.rank = (g2.hands p).map Card.rank) →
      g1.community.map Card.rank = g2.community.map Card.rank →
      decide_winner g1 = decide_winner g2) := by
  refine ⟨evaluate_hand_rank_congr, evaluate_hand_strength_rank_congr, ?_⟩
  intro g1 g2 hact hh hc
  unfold decide_winner
  rw [hact, decideWinnerLoop_congr g1 g2
    (fun p => evaluate_hand_rank_congr _ _ _ _ (hh p) hc)]

/-- C10 witness: suit changes at fixed ranks leave the evaluator score, the
heuristic strength and the winner list of concrete inputs unchanged. -/
theorem c10_scoring_suit_blind_witness :
    (evaluate_hand [(⟨'♠', "A"⟩ : Card), (⟨'♠', "K"⟩ : Card)] [(⟨'♠', "Q"⟩ : Card)] =
      evaluate_hand [(⟨'♥', "A"⟩ : Card), (⟨'♦', "K"⟩ : Card)] [(⟨'♣', "Q"⟩ : Card)]) ∧
    (evaluate_hand_strength ["A♠", "K♠"] ["Q♠"] =
      evaluate_hand_strength ["A♥", "K♦"] ["Q♣"]) ∧
    (decide_winner c10_game1 = decide_winner c10_game2) :=
  ⟨c10_scoring_suit_blind.1 _ _ _ _ (by decide) (by decide),
   c10_scoring_suit_blind.2.1 _ _ _ _ (by decide) (by decide),
   c10_scoring_suit_blind.2.2 c10_game1 c10_game2 rfl (fun p => rfl) rfl⟩
